import Mathlib

/-!
# Verification of the PyRate phase-closure check

A shallow embedding of `pyrate/core/phase_closure/closure_check.py` together
with proofs about its pruning stages and its outer stability iteration.

Modelling conventions:
* acquisition dates are natural numbers; interferogram file identifiers are a
  linearly ordered type `α` (file-path strings are lexicographically ordered);
* numpy `uint16` counters are modelled as `Nat` (the counted quantities — loop
  counts per interferogram and flagged-measurement counts per pixel — are far
  below `2^16` in any run the code supports, and no claim is about wrap-around);
* float arithmetic (`np.sum(...) / n / nrows / ncols`) is modelled exactly in `ℚ`;
* numpy arrays are total functions from indices (`Nat → Nat → Nat → Nat` for the
  3-D breach-count array indexed row, column, measurement, `Nat → Nat` for the
  1-D occurrences array);
* the collaborating modules that are not part of the sampled sources
  (`mst_closure.sort_loops_based_on_weights_and_date`, `sum_closure.sum_phase_closures`,
  the `Ifg` raster store, and `mpiops.run_once`, which simply evaluates its
  function on the designated worker) enter as explicit function parameters.
-/

namespace PyRateClosure

/-- Modelled from the spec: an `Edge` is an unordered pair of acquisition dates;
equality is direction-independent (the class itself lives in `mst_closure.py`,
which is outside the sampled sources).  We realise the set-like equality by
storing the canonically ordered pair. -/
abbrev Edge : Type := Nat × Nat

/-- Canonical constructor for `Edge`: `mkEdge a b` and `mkEdge b a` are equal,
giving the direction-independent equality the spec demands of `Edge`. -/
def mkEdge (a b : Nat) : Edge := (min a b, max a b)

/-- Modelled from the spec: a `SignedEdge` of a loop — an edge together with the
sign of its traversal direction inside the loop (from `mst_closure.py`). -/
structure SignedEdge where
  first : Nat
  second : Nat
  sign : Int
deriving DecidableEq, Repr

/-- Modelled from the spec: a `WeightedLoop` (from `mst_closure.py`) is an ordered
sequence of signed edges forming a closed cycle plus a scalar weight used for
sorting.  Only the fields the sampled code reads are modelled: `.loop` (the
signed-edge sequence, whose length is `len(loop)`) and the derived `.edges` set. -/
structure WeightedLoop where
  loop : List SignedEdge
  weight : ℚ
deriving DecidableEq, Repr

/-- The `.edges` attribute of a `WeightedLoop`: the set of distinct unordered
`Edge`s contained in the loop, ignoring sign (spec §3).  Modelled as a
duplicate-free list. -/
def WeightedLoop.edges (wl : WeightedLoop) : List Edge :=
  (wl.loop.map fun se => mkEdge se.first se.second).dedup

/-- The configuration parameters read by `closure_check.py` from the `params`
dict (`MAX_LOOP_LENGTH`, `MAX_LOOPS_IN_IFG`, `LOOPS_THR_IFG`, `AVG_IFG_ERR_THR`,
`PHS_UNW_ERR_THR`). -/
structure Params where
  maxLoopLength : Nat
  maxLoopsInIfg : Int
  loopsThrIfg : Int
  avgIfgErrThr : ℚ
  phsUnwErrThr : Nat

/-! ## Loop Count Pruner: `discard_loops_containing_max_ifg_count` -/

/-- One counter update of the pruner: `for e in loop.edges: ifg_counter[e] += 1`.
Since `loop.edges` is duplicate-free, each edge of the kept loop is incremented
by exactly one. -/
def bumpCounter (counter : Edge → Nat) (wl : WeightedLoop) : Edge → Nat :=
  fun e => if e ∈ wl.edges then counter e + 1 else counter e

/-- The loop of `discard_loops_containing_max_ifg_count`, with the
`ifg_counter` defaultdict made explicit.  A loop is appended to the selection
unless `np.all(edge_appearances > params[MAX_LOOPS_IN_IFG])`; on keeping, every
edge counter is incremented. -/
def discardLoopsAux (maxLoopsInIfg : Int) (counter : Edge → Nat) :
    List WeightedLoop → List WeightedLoop
  | [] => []
  | l :: rest =>
    if l.edges.all fun e => decide (maxLoopsInIfg < (counter e : Int)) then
      discardLoopsAux maxLoopsInIfg counter rest
    else
      l :: discardLoopsAux maxLoopsInIfg (bumpCounter counter l) rest

/-- `discard_loops_containing_max_ifg_count(loops, params)`: walk the sorted
loop list once with a per-edge counter starting at zero. -/
def discardLoopsContainingMaxIfgCount (loops : List WeightedLoop) (params : Params) :
    List WeightedLoop :=
  discardLoopsAux params.maxLoopsInIfg (fun _ => 0) loops

/-- Claim C1's reading of the pruner, following the spec's words: a loop is
discarded when every one of its edges has a counter that has *already reached*
(`≥`) `MAX_LOOPS_IN_IFG`.  Stated for comparison with the source's behaviour. -/
def claimDiscardLoopsAux (maxLoopsInIfg : Int) (counter : Edge → Nat) :
    List WeightedLoop → List WeightedLoop
  | [] => []
  | l :: rest =>
    if l.edges.all fun e => decide (maxLoopsInIfg ≤ (counter e : Int)) then
      claimDiscardLoopsAux maxLoopsInIfg counter rest
    else
      l :: claimDiscardLoopsAux maxLoopsInIfg (bumpCounter counter l) rest

/-- Claim C1's reading of `discard_loops_containing_max_ifg_count`. -/
def claimDiscardLoops (loops : List WeightedLoop) (params : Params) : List WeightedLoop :=
  claimDiscardLoopsAux params.maxLoopsInIfg (fun _ => 0) loops

/-- The amended keep-condition: at least one edge of the loop has a counter
that has not yet strictly exceeded `MAX_LOOPS_IN_IFG`. -/
def amendedKeep (maxLoopsInIfg : Int) (counter : Edge → Nat) (wl : WeightedLoop) : Prop :=
  ∃ e ∈ wl.edges, (counter e : Int) ≤ maxLoopsInIfg

instance (maxLoopsInIfg : Int) (counter : Edge → Nat) (wl : WeightedLoop) :
    Decidable (amendedKeep maxLoopsInIfg counter wl) := by
  unfold amendedKeep; infer_instance

/-- The amended pruner: keep a loop exactly when `amendedKeep` holds (some edge
counter is still `≤ MAX_LOOPS_IN_IFG`), and on keeping increment every edge
counter of the loop by one. -/
def amendedPruneAux (maxLoopsInIfg : Int) (counter : Edge → Nat) :
    List WeightedLoop → List WeightedLoop
  | [] => []
  | l :: rest =>
    if amendedKeep maxLoopsInIfg counter l then
      l :: amendedPruneAux maxLoopsInIfg (bumpCounter counter l) rest
    else
      amendedPruneAux maxLoopsInIfg counter rest

/-! ## Sorting of ifg file lists -/

/-- `ifg_files.sort()`: Python's stable sort of a list of file paths, modelled by
the stable `insertionSort` on a linearly ordered identifier type (file-path
strings compare lexicographically). -/
def sortIfgs {α : Type} [LinearOrder α] (l : List α) : List α :=
  l.insertionSort (· ≤ ·)

/-! ## Measurement Pruner, orphan rule: `__drop_ifgs_if_not_part_of_any_loop` -/

/-- The `loop_ifgs` set: every signed edge of every retained loop, added as an
unordered `Edge` (`loop_ifgs.add(Edge(edge.first, edge.second))`).  Modelled as
the list of those edges; only membership in it is ever consumed. -/
def loopIfgsOf (loops : List WeightedLoop) : List Edge :=
  loops.flatMap fun wl => wl.loop.map fun e => mkEdge e.first e.second

/-- `__drop_ifgs_if_not_part_of_any_loop(ifg_files, loops, params)`: keep, in
input order, exactly the files whose date pair (read from the raster store via
`ifgDates`, i.e. `Edge(i.first, i.second)`) occurs among the edges of the
retained loops. -/
def dropIfgsIfNotPartOfAnyLoop {α : Type} (ifgDates : α → Nat × Nat)
    (ifgFiles : List α) (loops : List WeightedLoop) : List α :=
  let loopIfgs := loopIfgsOf loops
  ifgFiles.filter fun f => decide (mkEdge (ifgDates f).1 (ifgDates f).2 ∈ loopIfgs)

/-! ## Measurement Pruner, threshold rule: `__drop_ifgs_exceeding_threshold` -/

/-- `np.sum(ifgs_breach_count[:, :, i])`: total breach count of measurement `i`
over all pixels of the `nrows × ncols` raster. -/
def totalBreachCount (breach : Nat → Nat → Nat → Nat) (nrows ncols i : Nat) : Nat :=
  ((List.range nrows).map fun r => ((List.range ncols).map fun c => breach r c i).sum).sum

/-- `ifg_remove_threshold_breached`: the weighted average breach measure
`np.sum(ifgs_breach_count[:, :, i]) / loop_count_of_this_ifg / nrows / ncols`
strictly exceeds `AVG_IFG_ERR_THR` (float arithmetic modelled exactly in `ℚ`). -/
def ifgRemoveThresholdBreached (breach : Nat → Nat → Nat → Nat) (occ : Nat → Nat)
    (nrows ncols i : Nat) (params : Params) : Prop :=
  (totalBreachCount breach nrows ncols i : ℚ) / (occ i : ℚ) / (nrows : ℚ) / (ncols : ℚ)
    > params.avgIfgErrThr

instance (breach : Nat → Nat → Nat → Nat) (occ : Nat → Nat) (nrows ncols i : Nat)
    (params : Params) : Decidable (ifgRemoveThresholdBreached breach occ nrows ncols i params) := by
  unfold ifgRemoveThresholdBreached; infer_instance

/-- The per-measurement decision of `__drop_ifgs_exceeding_threshold` for the
measurement at sorted position `i`: it is appended to `selected_ifg_files` iff
`num_occurences_each_ifg[i]` is non-zero (the body of
`if loop_count_of_this_ifg:` runs) and
`not (num_occurences_each_ifg[i] > params[LOOPS_THR_IFG] and
ifg_remove_threshold_breached)`. -/
def thresholdKeep (breach : Nat → Nat → Nat → Nat) (occ : Nat → Nat)
    (nrows ncols : Nat) (params : Params) (i : Nat) : Bool :=
  if occ i ≠ 0 then
    decide (¬(params.loopsThrIfg < (occ i : Int)
              ∧ ifgRemoveThresholdBreached breach occ nrows ncols i params))
  else
    false

/-- `__drop_ifgs_exceeding_threshold(orig_ifg_files, ifgs_breach_count,
num_occurences_each_ifg, params)`.  The Python function first sorts the caller's
list in place (`orig_ifg_files.sort()`); the first component is that post-call
state of the argument list, the second the returned `selected_ifg_files`, built
by enumerating the sorted list and appending position `i`'s file iff
`thresholdKeep … i`.  `nrows`/`ncols` are taken from `ifgs_breach_count.shape`. -/
def dropIfgsExceedingThreshold {α : Type} [LinearOrder α] (origIfgFiles : List α)
    (breach : Nat → Nat → Nat → Nat) (occ : Nat → Nat) (nrows ncols : Nat)
    (params : Params) : List α × List α :=
  let sorted := sortIfgs origIfgFiles
  (sorted,
   (sorted.enum.filter fun p => thresholdKeep breach occ nrows ncols params p.1).map Prod.snd)

/-! ## Pixel Unwrap-Error Detector: `detect_pix_with_unwrapping_errors` -/

/-- The accumulation loop of `detect_pix_with_unwrapping_errors` at one pixel:
for each measurement `i` in `range(n_ifgs)`, `pix_unwrap_error[pix_idx] += 1`
where `pix_idx = (ifgs_breach_count[:, :, i] == num_occurrences_each_ifg[i])`. -/
def pixUnwrapError (breach : Nat → Nat → Nat → Nat) (occ : Nat → Nat)
    (nIfgs r c : Nat) : Nat :=
  (List.range nIfgs).foldl (fun acc i => if breach r c i = occ i then acc + 1 else acc) 0

/-- Phase values as stored in an interferogram's phase raster; `none` is the
NaN sentinel. -/
abbrev PhaseVal : Type := Option ℚ

/-- `ifg.phase_data[nan_index] = np.nan` for one interferogram: the phase
raster after masking by the boolean pixel mask `nanIndex`. -/
def maskPhase (phase : Nat → Nat → PhaseVal) (nanIndex : Nat → Nat → Bool) :
    Nat → Nat → PhaseVal :=
  fun r c => if nanIndex r c then none else phase r c

/-- `detect_pix_with_unwrapping_errors(ifgs_breach_count,
num_occurrences_each_ifg, params)`.  Returns the `pix_unwrap_error` per-pixel
count and, for every entry of `params[INTERFEROGRAM_FILES]` (`files`), the
written-back phase raster: the opened interferogram's phase data (`phase f`,
read through `convert_to_nans`) with every pixel of
`nan_index = pix_unwrap_error >= params[PHS_UNW_ERR_THR]` set to NaN. -/
def detectPixWithUnwrappingErrors {ι : Type} (breach : Nat → Nat → Nat → Nat)
    (occ : Nat → Nat) (nIfgs : Nat) (params : Params)
    (files : List ι) (phase : ι → Nat → Nat → PhaseVal) :
    (Nat → Nat → Nat) × List (ι × (Nat → Nat → PhaseVal)) :=
  (fun r c => pixUnwrapError breach occ nIfgs r c,
   files.map fun f =>
     (f, maskPhase (phase f) fun r c =>
           decide (params.phsUnwErrThr ≤ pixUnwrapError breach occ nIfgs r c)))

/-! ## `wrap_closure_check` and the Stability Iterator -/

/-- The outputs of `sum_closure.sum_phase_closures` consumed downstream,
together with the raster dimensions `ifgs_breach_count.shape[:2]`: the closure
array `[row, col, loop]`, the 3-D breach-count array `[row, col, measurement]`
and the 1-D occurrence array `[measurement]`.  `sum_phase_closures` itself is
outside the sampled sources, so it enters the embedding as a parameter
producing this record. -/
structure SumClosureOut where
  closure : Nat → Nat → Nat → ℚ
  breach : Nat → Nat → Nat → Nat
  occ : Nat → Nat
  nrows : Nat
  ncols : Nat

/-- The tuple returned by one successful run of `wrap_closure_check`:
`selected_ifg_files, closure, ifgs_breach_count, num_occurences_each_ifg,
retained_loops`. -/
structure WrapResult (α : Type) where
  selectedIfgFiles : List α
  closure : Nat → Nat → Nat → ℚ
  ifgsBreachCount : Nat → Nat → Nat → Nat
  numOccurrences : Nat → Nat
  retainedLoops : List WeightedLoop

/-- `wrap_closure_check(ifg_files, config)`.  Collaborators outside the sampled
sources are parameters: `loopGen` is
`mst_closure.sort_loops_based_on_weights_and_date` (executed under
`mpiops.run_once`, which evaluates the function once and shares the result),
`sumPC` is `sum_closure.sum_phase_closures`, and `ifgDates` is the raster
store's date-pair lookup used by the orphan rule.  `ifg_files.sort()` sorts the
caller's list in place; the embedding applies `sortIfgs` at entry, exactly as
every later read of that list observes it.  The two zero-loop checks return
`None` (`NoUsableLoops`): the first after the `MAX_LOOP_LENGTH` filter, the
second after `discard_loops_containing_max_ifg_count` (note the source computes
`ifgs_with_loops` before making the second check). -/
def wrapClosureCheck {α : Type} [LinearOrder α]
    (loopGen : List α → List WeightedLoop)
    (sumPC : List α → List WeightedLoop → SumClosureOut)
    (ifgDates : α → Nat × Nat) (params : Params) (ifgFiles : List α) :
    Option (WrapResult α) :=
  let sorted := sortIfgs ifgFiles
  let sortedSignedLoops := loopGen sorted
  let retainedLoopsMeetingMaxLoopCriteria :=
    sortedSignedLoops.filter fun sl => decide (sl.loop.length ≤ params.maxLoopLength)
  if retainedLoopsMeetingMaxLoopCriteria.length < 1 then
    none
  else
    let retainedLoops :=
      discardLoopsContainingMaxIfgCount retainedLoopsMeetingMaxLoopCriteria params
    let ifgsWithLoops := dropIfgsIfNotPartOfAnyLoop ifgDates sorted retainedLoops
    if retainedLoops.length < 1 then
      none
    else
      let s := sumPC ifgsWithLoops retainedLoops
      let sel := dropIfgsExceedingThreshold ifgsWithLoops s.breach s.occ s.nrows s.ncols params
      some ⟨sel.2, s.closure, s.breach, s.occ, retainedLoops⟩

/-- The `while True` loop of `filter_to_closure_checked_ifgs`, parametrised by
the body's single-run function (`wrap_closure_check` partially applied) and
supplied with fuel.  Each pass either aborts (`None` propagates), converges
when the candidate list's length equals the current list's length (returning
the current — by now in-place sorted — list together with the latest breach
and occurrence arrays), or replaces the list by the candidate and runs again. -/
def closureLoop {α : Type} [LinearOrder α]
    (step : List α → Option (WrapResult α)) :
    Nat → List α → Option (List α × (Nat → Nat → Nat → Nat) × (Nat → Nat))
  | 0, _ => none
  | fuel + 1, ifgFiles =>
    (step ifgFiles).bind fun r =>
      if ifgFiles.length = r.selectedIfgFiles.length then
        some (sortIfgs ifgFiles, r.ifgsBreachCount, r.numOccurrences)
      else
        closureLoop step fuel r.selectedIfgFiles

/-- `filter_to_closure_checked_ifgs(config)`: iterate `wrap_closure_check` to a
stable list of interferogram files.  `fuel` bounds the number of passes; the
termination half of claim C6 shows that any fuel exceeding the initial list
length yields the same result, so the bound is immaterial. -/
def filterToClosureCheckedIfgs {α : Type} [LinearOrder α]
    (loopGen : List α → List WeightedLoop)
    (sumPC : List α → List WeightedLoop → SumClosureOut)
    (ifgDates : α → Nat × Nat) (params : Params) (fuel : Nat) (ifgFiles : List α) :
    Option (List α × (Nat → Nat → Nat → Nat) × (Nat → Nat)) :=
  closureLoop (wrapClosureCheck loopGen sumPC ifgDates params) fuel ifgFiles

/-! ## Concrete instances used in witnesses and counterexamples -/

/-- A one-edge loop between dates 0 and 1, weight 0. -/
def exLoop : WeightedLoop := ⟨[⟨0, 1, 1⟩], 0⟩

/-- `MAX_LOOP_LENGTH = 4`, `MAX_LOOPS_IN_IFG = 1`, `LOOPS_THR_IFG = 0`,
`AVG_IFG_ERR_THR = 0`, `PHS_UNW_ERR_THR = 5`. -/
def exParams : Params := ⟨4, 1, 0, 0, 5⟩

/-- `MAX_LOOP_LENGTH = 4`, `MAX_LOOPS_IN_IFG = 2`, `LOOPS_THR_IFG = 5`,
`AVG_IFG_ERR_THR = 0`, `PHS_UNW_ERR_THR = 5`. -/
def exParamsRun : Params := ⟨4, 2, 5, 0, 5⟩

/-- A loop generator that always proposes the single loop `exLoop`. -/
def exLoopGen : List Nat → List WeightedLoop := fun _ => [exLoop]

/-- A loop generator that never finds a loop. -/
def exLoopGenEmpty : List Nat → List WeightedLoop := fun _ => []

/-- A closure-sum engine over a 1×1 raster with no breaches and every
measurement occurring in exactly one loop. -/
def exSumPC : List Nat → List WeightedLoop → SumClosureOut :=
  fun _ _ => ⟨fun _ _ _ => 0, fun _ _ _ => 0, fun _ => 1, 1, 1⟩

/-- Interferogram 0 spans dates 0 to 1. -/
def exDates : Nat → Nat × Nat := fun _ => (0, 1)

/-- The `WrapResult` of `wrapClosureCheck exLoopGen exSumPC exDates exParamsRun [0]`. -/
def exResult : WrapResult Nat :=
  ⟨[0], fun _ _ _ => 0, fun _ _ _ => 0, fun _ => 1, [exLoop]⟩

end PyRateClosure


namespace PyRateClosure

/-! # Supporting lemmas -/

lemma discardLoopsAux_eq_amendedPruneAux (maxLoopsInIfg : Int) :
    ∀ (loops : List WeightedLoop) (counter : Edge → Nat),
      discardLoopsAux maxLoopsInIfg counter loops
        = amendedPruneAux maxLoopsInIfg counter loops := by
  intro loops
  induction loops with
  | nil => intro counter; rfl
  | cons l rest ih =>
    intro counter
    simp only [discardLoopsAux, amendedPruneAux]
    by_cases h : amendedKeep maxLoopsInIfg counter l
    · have hall : (l.edges.all fun e => decide (maxLoopsInIfg < (counter e : Int))) = false := by
        obtain ⟨e, he, hle⟩ := h
        refine List.all_eq_false.mpr ⟨e, he, ?_⟩
        simpa using not_lt.mpr hle
      rw [hall, if_pos h]
      simp [ih]
    · have hall : (l.edges.all fun e => decide (maxLoopsInIfg < (counter e : Int))) = true := by
        unfold amendedKeep at h
        push_neg at h
        simp only [List.all_eq_true, decide_eq_true_eq]
        exact fun e he => h e he
      rw [hall, if_neg h]
      simp [ih]

lemma foldl_count_eq (q : Nat → Prop) [DecidablePred q] :
    ∀ (L : List Nat) (n : Nat),
      L.foldl (fun acc i => if q i then acc + 1 else acc) n
        = n + (L.filter fun i => decide (q i)).length := by
  intro L
  induction L with
  | nil => intro n; simp
  | cons a L ih =>
    intro n
    by_cases h : q a
    · rw [List.foldl_cons]
      simp only [if_pos h]
      rw [ih]
      have hf : (a :: L).filter (fun i => decide (q i)) = a :: L.filter (fun i => decide (q i)) := by
        simp [List.filter_cons, h]
      rw [hf, List.length_cons]
      omega
    · rw [List.foldl_cons]
      simp only [if_neg h]
      rw [ih]
      have hf : (a :: L).filter (fun i => decide (q i)) = L.filter (fun i => decide (q i)) := by
        simp [List.filter_cons, h]
      rw [hf]

lemma pixUnwrapError_eq_count (breach : Nat → Nat → Nat → Nat) (occ : Nat → Nat)
    (nIfgs r c : Nat) :
    pixUnwrapError breach occ nIfgs r c
      = ((List.range nIfgs).filter fun m => decide (breach r c m = occ m)).length := by
  unfold pixUnwrapError
  simpa using foldl_count_eq (fun i => breach r c i = occ i) (List.range nIfgs) 0

lemma length_filter_mem_split (p : Nat → Bool) :
    ∀ (L : List Nat) (m : Nat), L.Nodup → m ∈ L → p m = true →
      (L.filter p).length = (L.filter fun i => decide (i ≠ m) && p i).length + 1 := by
  intro L
  induction L with
  | nil => intro m _ hm; exact absurd hm (List.not_mem_nil m)
  | cons a L ih =>
    intro m hnd hm hpm
    obtain ⟨ha, hndL⟩ := List.nodup_cons.mp hnd
    by_cases ham : a = m
    · subst ham
      have hL : L.filter (fun i => !decide (i = a) && p i) = L.filter p := by
        refine List.filter_congr ?_
        intro x hx
        have hxa : ¬(x = a) := fun hEq => ha (hEq ▸ hx)
        simp [hxa]
      simp [List.filter_cons, hpm, hL]
    · have hm' : m ∈ L := by
        rcases List.mem_cons.mp hm with hEq | hIn
        · exact absurd hEq.symm ham
        · exact hIn
      by_cases hpa : p a = true
      · simp [List.filter_cons, hpa, ham, ih m hndL hm' hpm]
      · have hpa' : p a = false := by revert hpa; cases p a <;> simp
        simp [List.filter_cons, hpa', ham, ih m hndL hm' hpm]

lemma dropThreshold_sel_sublist {α : Type} [LinearOrder α] (ifgFiles : List α)
    (breach : Nat → Nat → Nat → Nat) (occ : Nat → Nat) (nrows ncols : Nat)
    (params : Params) :
    List.Sublist (dropIfgsExceedingThreshold ifgFiles breach occ nrows ncols params).2
      (sortIfgs ifgFiles) := by
  have h1 : List.Sublist
      ((sortIfgs ifgFiles).enum.filter fun p => thresholdKeep breach occ nrows ncols params p.1)
      ((sortIfgs ifgFiles).enum) := List.filter_sublist _
  have h2 := h1.map Prod.snd
  rw [List.enum_map_snd] at h2
  exact h2

lemma sel_subperm_of_sublist {α : Type} [LinearOrder α] (base iwl : List α)
    (breach : Nat → Nat → Nat → Nat) (occ : Nat → Nat) (nrows ncols : Nat)
    (params : Params) (hiwl : List.Sublist iwl (sortIfgs base)) :
    List.Subperm (dropIfgsExceedingThreshold iwl breach occ nrows ncols params).2 base := by
  have h1 := dropThreshold_sel_sublist iwl breach occ nrows ncols params
  have h2 : List.Perm (sortIfgs iwl) iwl := List.perm_insertionSort _ _
  have h4 : List.Perm (sortIfgs base) base := List.perm_insertionSort _ _
  exact ((h1.subperm.trans h2.subperm).trans hiwl.subperm).trans h4.subperm

lemma wrapClosureCheck_subperm {α : Type} [LinearOrder α]
    (loopGen : List α → List WeightedLoop)
    (sumPC : List α → List WeightedLoop → SumClosureOut)
    (ifgDates : α → Nat × Nat) (params : Params) (ifgFiles : List α) (r : WrapResult α)
    (h : wrapClosureCheck loopGen sumPC ifgDates params ifgFiles = some r) :
    List.Subperm r.selectedIfgFiles ifgFiles := by
  simp only [wrapClosureCheck] at h
  split at h
  · exact absurd h (by simp)
  · split at h
    · exact absurd h (by simp)
    · obtain rfl := (Option.some.injEq _ _).mp h
      refine sel_subperm_of_sublist ifgFiles _ _ _ _ _ params ?_
      simp only [dropIfgsIfNotPartOfAnyLoop]
      exact List.filter_sublist _

lemma closureLoop_fuel_stable {α : Type} [LinearOrder α]
    (step : List α → Option (WrapResult α))
    (hstep : ∀ l r, step l = some r → r.selectedIfgFiles.length ≤ l.length) :
    ∀ (k : Nat) (l : List α), l.length ≤ k →
      ∀ n m, l.length < n → l.length < m → closureLoop step n l = closureLoop step m l := by
  intro k
  induction k with
  | zero =>
    intro l hl n m hn hm
    obtain ⟨n', rfl⟩ : ∃ n', n = n' + 1 := ⟨n - 1, by omega⟩
    obtain ⟨m', rfl⟩ : ∃ m', m = m' + 1 := ⟨m - 1, by omega⟩
    simp only [closureLoop]
    cases hstep_eq : step l with
    | none => rfl
    | some r =>
      have hle := hstep l r hstep_eq
      have heq : l.length = r.selectedIfgFiles.length := by omega
      rw [Option.some_bind, Option.some_bind, if_pos heq, if_pos heq]
  | succ k ih =>
    intro l hl n m hn hm
    obtain ⟨n', rfl⟩ : ∃ n', n = n' + 1 := ⟨n - 1, by omega⟩
    obtain ⟨m', rfl⟩ : ∃ m', m = m' + 1 := ⟨m - 1, by omega⟩
    simp only [closureLoop]
    cases hstep_eq : step l with
    | none => rfl
    | some r =>
      rw [Option.some_bind, Option.some_bind]
      by_cases heq : l.length = r.selectedIfgFiles.length
      · rw [if_pos heq, if_pos heq]
      · rw [if_neg heq, if_neg heq]
        have hle := hstep l r hstep_eq
        exact ih r.selectedIfgFiles (by omega) n' m' (by omega) (by omega)

end PyRateClosure

namespace PyRateClosure

/-! # Claims -/

/-- Claim C1, counterexample.  The claim reads the Loop Count Pruner as
discarding a loop once every edge counter has *reached* `MAX_LOOPS_IN_IFG`.
With `MAX_LOOPS_IN_IFG = 1` and the same one-edge loop offered three times, the
source keeps the first two copies (the second is kept although its only edge's
counter has already reached 1), while the claim's reading keeps only the first:
the code discards only once every counter strictly exceeds the cap. -/
theorem C1_counterexample :
    discardLoopsContainingMaxIfgCount [exLoop, exLoop, exLoop] exParams = [exLoop, exLoop]
    ∧ claimDiscardLoops [exLoop, exLoop, exLoop] exParams = [exLoop] := by
  exact ⟨by decide, by decide⟩

/-- Claim C1, amended.  `discard_loops_containing_max_ifg_count` keeps a loop
iff at least one of its edges has a counter still `≤ MAX_LOOPS_IN_IFG` (that
is, a loop is discarded only when every edge counter *strictly exceeds* the
cap), and on keeping a loop it increments the counter of every one of its
edges — including edges at or above the cap — by exactly one before the next
loop is examined. -/
theorem C1_loop_count_pruner (params : Params) (loops : List WeightedLoop) :
    discardLoopsContainingMaxIfgCount loops params
      = amendedPruneAux params.maxLoopsInIfg (fun _ => 0) loops :=
  discardLoopsAux_eq_amendedPruneAux params.maxLoopsInIfg loops (fun _ => 0)

/-- Claim C2.  For a measurement with a non-zero occurrence count, the
threshold stage drops it (its keep-decision is `false`) iff BOTH its occurrence
count strictly exceeds `LOOPS_THR_IFG` AND its weighted average breach fraction
`sum(breach_count) / occurrence_count / total_pixel_count` strictly exceeds
`AVG_IFG_ERR_THR`. -/
theorem C2_threshold_rule (breach : Nat → Nat → Nat → Nat) (occ : Nat → Nat)
    (nrows ncols : Nat) (params : Params) (i : Nat) (h : occ i ≠ 0) :
    thresholdKeep breach occ nrows ncols params i = false ↔
      (params.loopsThrIfg < (occ i : Int)
        ∧ (totalBreachCount breach nrows ncols i : ℚ) / (occ i : ℚ)
            / ((nrows * ncols : Nat) : ℚ) > params.avgIfgErrThr) := by
  unfold thresholdKeep
  rw [if_pos h, decide_eq_false_iff_not, not_not]
  unfold ifgRemoveThresholdBreached
  rw [show ((nrows * ncols : Nat) : ℚ) = (nrows : ℚ) * (ncols : ℚ) from by push_cast; ring,
    ← div_div]

/-- Witness for claim C2: one measurement on a 1×1 raster, breached in its
single loop; occurrence count 1 exceeds `LOOPS_THR_IFG = 0` and breach fraction
`1/1/1 = 1` exceeds `AVG_IFG_ERR_THR = 1/2`, so it is dropped. -/
theorem C2_witness :
    thresholdKeep (fun _ _ _ => 1) (fun _ => 1) 1 1 ⟨4, 2, 0, 1/2, 5⟩ 0 = false := by
  refine (C2_threshold_rule (fun _ _ _ => 1) (fun _ => 1) 1 1 ⟨4, 2, 0, 1/2, 5⟩ 0
    (by decide)).mpr ⟨by decide, ?_⟩
  have ht : totalBreachCount (fun _ _ _ => 1) 1 1 0 = 1 := rfl
  rw [ht]
  norm_num

/-- Claim C3, counterexample.  A measurement with zero occurrence count that
reaches the threshold stage is *not* retained: with a single file, all-zero
occurrence array and a 1×1 raster, the returned selection is empty. -/
theorem C3_counterexample :
    (0 : Nat) ∉ (dropIfgsExceedingThreshold [0] (fun _ _ _ => 0) (fun _ => 0) 1 1 exParams).2 := by
  decide

/-- Claim C3, amended.  A measurement whose occurrence count is zero is dropped
by the threshold stage, not retained: the `if loop_count_of_this_ifg:` guard
skips the only `selected_ifg_files.append`, so its keep-decision is `false` and
its (index, file) entry never passes the selection filter. -/
theorem C3_zero_occurrence_dropped {α : Type} [LinearOrder α] (ifgFiles : List α)
    (breach : Nat → Nat → Nat → Nat) (occ : Nat → Nat) (nrows ncols : Nat)
    (params : Params) (i : Nat) (f : α) (h : occ i = 0) :
    thresholdKeep breach occ nrows ncols params i = false
    ∧ (i, f) ∉ (sortIfgs ifgFiles).enum.filter
        (fun p => thresholdKeep breach occ nrows ncols params p.1) := by
  have hk : thresholdKeep breach occ nrows ncols params i = false := by
    unfold thresholdKeep
    exact if_neg (fun hne => hne h)
  refine ⟨hk, fun hmem => ?_⟩
  have h2 := (List.mem_filter.mp hmem).2
  simp [hk] at h2

/-- Witness for claim C3 (amended): file 0 with zero occurrences is dropped. -/
theorem C3_witness :
    thresholdKeep (fun _ _ _ => 0) (fun _ => 0) 1 1 exParams 0 = false
    ∧ ((0 : Nat), (0 : Nat)) ∉ (sortIfgs [(0 : Nat)]).enum.filter
        (fun p => thresholdKeep (fun _ _ _ => 0) (fun _ => 0) 1 1 exParams p.1) :=
  C3_zero_occurrence_dropped [0] (fun _ _ _ => 0) (fun _ => 0) 1 1 exParams 0 0 rfl

/-- Claim C4.  The orphan rule returns exactly those input measurements whose
`Edge` (unordered date pair) belongs to the union of the retained loops' edge
sets, in input order; every other measurement is dropped regardless of breach
statistics (the decision reads nothing but the date pair and the loops). -/
theorem C4_orphan_rule {α : Type} (ifgDates : α → Nat × Nat)
    (ifgFiles : List α) (loops : List WeightedLoop) :
    dropIfgsIfNotPartOfAnyLoop ifgDates ifgFiles loops
      = ifgFiles.filter fun f =>
          decide (∃ wl ∈ loops, mkEdge (ifgDates f).1 (ifgDates f).2 ∈ wl.edges) := by
  simp only [dropIfgsIfNotPartOfAnyLoop]
  apply List.filter_congr
  intro f _
  rw [decide_eq_decide]
  unfold loopIfgsOf WeightedLoop.edges
  simp only [List.mem_flatMap, List.mem_dedup, List.mem_map]

/-- Claim C5.  The outer iteration of `filter_to_closure_checked_ifgs`
converges (breaks out of the `while True`) exactly when the candidate list
produced by one pass has the same length as the current list — regardless of
the lists' contents — and otherwise replaces the list by the candidate and
runs another pass. -/
theorem C5_convergence_by_length {α : Type} [LinearOrder α]
    (loopGen : List α → List WeightedLoop)
    (sumPC : List α → List WeightedLoop → SumClosureOut)
    (ifgDates : α → Nat × Nat) (params : Params) (fuel : Nat)
    (ifgFiles : List α) (r : WrapResult α)
    (h : wrapClosureCheck loopGen sumPC ifgDates params ifgFiles = some r) :
    (r.selectedIfgFiles.length = ifgFiles.length →
       filterToClosureCheckedIfgs loopGen sumPC ifgDates params (fuel + 1) ifgFiles
         = some (sortIfgs ifgFiles, r.ifgsBreachCount, r.numOccurrences))
    ∧ (r.selectedIfgFiles.length ≠ ifgFiles.length →
       filterToClosureCheckedIfgs loopGen sumPC ifgDates params (fuel + 1) ifgFiles
         = filterToClosureCheckedIfgs loopGen sumPC ifgDates params fuel r.selectedIfgFiles) := by
  unfold filterToClosureCheckedIfgs
  constructor
  · intro hlen
    simp only [closureLoop, h, Option.some_bind]
    rw [if_pos hlen.symm]
  · intro hlen
    simp only [closureLoop, h, Option.some_bind]
    rw [if_neg (fun hEq => hlen hEq.symm)]

/-- Witness for claim C5: on the concrete one-measurement instance the pass
keeps the single file, lengths agree, and the iteration converges at once. -/
theorem C5_witness :
    filterToClosureCheckedIfgs exLoopGen exSumPC exDates exParamsRun 1 [0]
      = some (sortIfgs [0], exResult.ifgsBreachCount, exResult.numOccurrences) :=
  (C5_convergence_by_length exLoopGen exSumPC exDates exParamsRun 0 [0] exResult rfl).1 rfl

/-- Claim C6.  Each pass of the closure check only removes measurements: a
successful `wrap_closure_check` returns a sub-collection (sub-permutation) of
its input list, hence of non-increasing length; consequently the outer
iteration is stable in its fuel bound — any two fuel values exceeding the
initial list length give the same outcome, i.e. the `while True` loop always
terminates (by convergence or abort) within `length + 1` passes. -/
theorem C6_monotone_and_terminates {α : Type} [LinearOrder α]
    (loopGen : List α → List WeightedLoop)
    (sumPC : List α → List WeightedLoop → SumClosureOut)
    (ifgDates : α → Nat × Nat) (params : Params) :
    (∀ (ifgFiles : List α) (r : WrapResult α),
        wrapClosureCheck loopGen sumPC ifgDates params ifgFiles = some r →
        List.Subperm r.selectedIfgFiles ifgFiles
          ∧ r.selectedIfgFiles.length ≤ ifgFiles.length)
    ∧ (∀ (ifgFiles : List α) (n m : Nat), ifgFiles.length < n → ifgFiles.length < m →
        filterToClosureCheckedIfgs loopGen sumPC ifgDates params n ifgFiles
          = filterToClosureCheckedIfgs loopGen sumPC ifgDates params m ifgFiles) := by
  constructor
  · intro ifgFiles r h
    have hsub := wrapClosureCheck_subperm loopGen sumPC ifgDates params ifgFiles r h
    exact ⟨hsub, hsub.length_le⟩
  · intro ifgFiles n m hn hm
    exact closureLoop_fuel_stable _
      (fun l r h => (wrapClosureCheck_subperm loopGen sumPC ifgDates params l r h).length_le)
      ifgFiles.length ifgFiles le_rfl n m hn hm

/-- Witness for claim C6 on the concrete one-measurement instance: the
selection is a sub-permutation of the input of non-greater length, and fuel 5
and fuel 2 (both exceeding the list length 1) give the same outcome. -/
theorem C6_witness :
    List.Subperm exResult.selectedIfgFiles [0]
    ∧ exResult.selectedIfgFiles.length ≤ ([0] : List Nat).length
    ∧ filterToClosureCheckedIfgs exLoopGen exSumPC exDates exParamsRun 5 [0]
        = filterToClosureCheckedIfgs exLoopGen exSumPC exDates exParamsRun 2 [0] := by
  have h := C6_monotone_and_terminates exLoopGen exSumPC exDates exParamsRun
  exact ⟨(h.1 [0] exResult rfl).1, (h.1 [0] exResult rfl).2,
    h.2 [0] 5 2 (by decide) (by decide)⟩

/-- Claim C7.  If the `MAX_LOOP_LENGTH` filter or the Loop Count Pruner leaves
zero loops, `wrap_closure_check` returns `None` — and does so for *every*
closure-sum engine and raster store, i.e. without the later stages (closure
summing, measurement pruning) influencing the outcome — and
`filter_to_closure_checked_ifgs` then returns `None` to its caller instead of
a measurement set. -/
theorem C7_abort_on_no_usable_loops {α : Type} [LinearOrder α]
    (loopGen : List α → List WeightedLoop) (params : Params) (ifgFiles : List α)
    (h : ((loopGen (sortIfgs ifgFiles)).filter
            (fun sl => decide (sl.loop.length ≤ params.maxLoopLength))).length < 1
       ∨ (discardLoopsContainingMaxIfgCount
            ((loopGen (sortIfgs ifgFiles)).filter
              (fun sl => decide (sl.loop.length ≤ params.maxLoopLength))) params).length < 1) :
    ∀ (sumPC : List α → List WeightedLoop → SumClosureOut) (ifgDates : α → Nat × Nat)
      (fuel : Nat),
      wrapClosureCheck loopGen sumPC ifgDates params ifgFiles = none
      ∧ filterToClosureCheckedIfgs loopGen sumPC ifgDates params (fuel + 1) ifgFiles = none := by
  intro sumPC ifgDates fuel
  have hw : wrapClosureCheck loopGen sumPC ifgDates params ifgFiles = none := by
    simp only [wrapClosureCheck]
    rcases h with h1 | h2
    · rw [if_pos h1]
    · by_cases h1 : ((loopGen (sortIfgs ifgFiles)).filter
          (fun sl => decide (sl.loop.length ≤ params.maxLoopLength))).length < 1
      · rw [if_pos h1]
      · rw [if_neg h1, if_pos h2]
  refine ⟨hw, ?_⟩
  unfold filterToClosureCheckedIfgs
  simp only [closureLoop, hw, Option.none_bind]

/-- Witness for claim C7: a loop generator that proposes no loops makes the
length filter leave zero loops, so the check aborts with `None`. -/
theorem C7_witness :
    wrapClosureCheck exLoopGenEmpty exSumPC exDates exParamsRun [0] = none
    ∧ filterToClosureCheckedIfgs exLoopGenEmpty exSumPC exDates exParamsRun 3 [0] = none :=
  C7_abort_on_no_usable_loops exLoopGenEmpty exParamsRun [0] (Or.inl (by decide))
    exSumPC exDates 2

/-- Claim C8.  `detect_pix_with_unwrapping_errors` returns, at each pixel, the
number of measurements `m` with `breach_count[r,c,m] == occurrences[m]`
(breached in every loop the measurement participated in), and writes back, for
every listed measurement uniformly, a phase raster in which exactly the pixels
whose count reaches `PHS_UNW_ERR_THR` are set to the NaN sentinel. -/
theorem C8_pixel_detector {ι : Type} (breach : Nat → Nat → Nat → Nat)
    (occ : Nat → Nat) (nIfgs : Nat) (params : Params)
    (files : List ι) (phase : ι → Nat → Nat → PhaseVal) :
    (∀ r c, (detectPixWithUnwrappingErrors breach occ nIfgs params files phase).1 r c
        = ((List.range nIfgs).filter fun m => decide (breach r c m = occ m)).length)
    ∧ (detectPixWithUnwrappingErrors breach occ nIfgs params files phase).2
        = files.map fun f =>
            (f, maskPhase (phase f) fun r c =>
              decide (params.phsUnwErrThr
                ≤ ((List.range nIfgs).filter fun m => decide (breach r c m = occ m)).length)) := by
  constructor
  · intro r c
    exact pixUnwrapError_eq_count breach occ nIfgs r c
  · simp only [detectPixWithUnwrappingErrors, pixUnwrapError_eq_count]

/-- Claim C9.  A measurement `m` with zero occurrences is counted as flagged at
every pixel whose breach count for `m` is zero (`0 == 0` holds vacuously), so
its presence inflates the per-pixel unwrap-error count by exactly one over the
count taken across the remaining measurements. -/
theorem C9_zero_occurrence_inflates_count (breach : Nat → Nat → Nat → Nat)
    (occ : Nat → Nat) (nIfgs m r c : Nat)
    (hm : m < nIfgs) (h0 : occ m = 0) (hb : breach r c m = 0) :
    pixUnwrapError breach occ nIfgs r c
      = ((List.range nIfgs).filter
          fun i => decide (i ≠ m) && decide (breach r c i = occ i)).length + 1 := by
  rw [pixUnwrapError_eq_count]
  exact length_filter_mem_split (fun i => decide (breach r c i = occ i)) (List.range nIfgs) m
    (List.nodup_range _) (List.mem_range.mpr hm) (by simp [hb, h0])

/-- Witness for claim C9: with an all-zero breach array and all-zero occurrence
array over two measurements, the zero-occurrence measurement 0 contributes one
extra flagged measurement at pixel (0, 0). -/
theorem C9_witness :
    pixUnwrapError (fun _ _ _ => 0) (fun _ => 0) 2 0 0
      = ((List.range 2).filter
          fun i => decide (i ≠ 0) && decide ((0 : Nat) = 0)).length + 1 :=
  C9_zero_occurrence_inflates_count (fun _ _ _ => 0) (fun _ => 0) 2 0 0 0 (by decide) rfl rfl

/-- Claim C10.  `__drop_ifgs_exceeding_threshold` sorts its `orig_ifg_files`
argument in place: after the call the caller's list is the sorted (ordered,
and a permutation of the original) file list; the returned selection is a
subsequence of that sorted list; and the measurement-to-array-index
correspondence enumerates the sorted order, so the breach-count and
occurrences arrays are read at sorted positions. -/
theorem C10_sort_frame_effect {α : Type} [LinearOrder α] (ifgFiles : List α)
    (breach : Nat → Nat → Nat → Nat) (occ : Nat → Nat) (nrows ncols : Nat)
    (params : Params) :
    (dropIfgsExceedingThreshold ifgFiles breach occ nrows ncols params).1 = sortIfgs ifgFiles
    ∧ List.Sorted (· ≤ ·) (dropIfgsExceedingThreshold ifgFiles breach occ nrows ncols params).1
    ∧ List.Perm (dropIfgsExceedingThreshold ifgFiles breach occ nrows ncols params).1 ifgFiles
    ∧ List.Sublist (dropIfgsExceedingThreshold ifgFiles breach occ nrows ncols params).2
        (dropIfgsExceedingThreshold ifgFiles breach occ nrows ncols params).1
    ∧ (dropIfgsExceedingThreshold ifgFiles breach occ nrows ncols params).2
        = ((sortIfgs ifgFiles).enum.filter
            (fun p => thresholdKeep breach occ nrows ncols params p.1)).map Prod.snd :=
  ⟨rfl, List.sorted_insertionSort _ _, List.perm_insertionSort _ _,
    dropThreshold_sel_sublist ifgFiles breach occ nrows ncols params, rfl⟩

end PyRateClosure
